import Mathlib

/-!
Verification of the imbalance-analysis report engine of this repository
(class `ReportGenerator` in `src/report_generator.py`).

The half-hourly price/volume table `self.data` is modelled as a `DataFrame`:
a list of timestamps (the index) together with optional columns, where `none`
means the column is absent, in which case reading it raises a `KeyError`
exactly as pandas does.  Numeric values are idealised as rationals; the NaN
that the pandas mean of an empty column produces is modelled as `Option.none`.
Every method of `ReportGenerator` mutates `self.data` in place, so each
operation is embedded as a function `DataFrame → DataFrame × Except Err α`
returning the mutated frame together with the returned value or the raised
exception.
-/

namespace Imbalance

/-- One entry of the `DatetimeIndex`: calendar day as a day number
(days since 1970-01-01, which was a Thursday), hour of day, and minute. -/
structure Timestamp where
  day : Nat
  hour : Fin 24
  minute : Nat
deriving DecidableEq, Repr

/-- Exceptions raised by the pandas operations that `ReportGenerator` uses:
a `KeyError` for a missing column, a `ValueError` for `idxmax` on an empty
series. -/
inductive Err where
  | keyError (field : String)
  | valueError
deriving DecidableEq, Repr

/-- The table `self.data`: the timestamp index plus every column that
`ReportGenerator` ever reads or writes.  `none` means the column is absent. -/
structure DataFrame where
  index : List Timestamp
  systemSellPrice : Option (List ℚ)
  systemBuyPrice : Option (List ℚ)
  netImbalanceVolume : Option (List ℚ)
  imbalanceCost : Option (List ℚ)
  hour : Option (List Nat)
  hourlyImbalanceCost : Option (List ℚ)
  date : Option (List Nat)
deriving DecidableEq, Repr

/-- Reading column `name` of the frame: `KeyError name` when absent. -/
def getCol {α : Type} (c : Option α) (name : String) : Except Err α :=
  match c with
  | some v => .ok v
  | none => .error (.keyError name)

/-- Elementwise ternary combination of three equal-length columns. -/
def zipWith3 {α β γ δ : Type} (f : α → β → γ → δ) :
    List α → List β → List γ → List δ
  | a :: as, b :: bs, c :: cs => f a b c :: zipWith3 f as bs cs
  | _, _, _ => []

/-- The vectorised cost computation of lines 23-27 of the source:
`np.where(volume < 0, abs(volume) * sellPrice, abs(volume) * buyPrice)`. -/
def whereCosts (nv sp bp : List ℚ) : List ℚ :=
  zipWith3 (fun v s b => if v < 0 then |v| * s else |v| * b) nv sp bp

/-- Model of `calculate_daily_imbalance_cost` (source lines 12-30): compute
the per-interval costs with `np.where`, store them in the `imbalanceCost`
column, and return their sum.  The three column reads happen, in Python
evaluation order, before the single assignment, so a missing column raises
before any mutation. -/
def calculate_daily_imbalance_cost (df : DataFrame) : DataFrame × Except Err ℚ :=
  match getCol df.netImbalanceVolume "netImbalanceVolume" with
  | .error e => (df, .error e)
  | .ok nv =>
    match getCol df.systemSellPrice "systemSellPrice" with
    | .error e => (df, .error e)
    | .ok sp =>
      match getCol df.systemBuyPrice "systemBuyPrice" with
      | .error e => (df, .error e)
      | .ok bp =>
        let costs := whereCosts nv sp bp
        ({ df with imbalanceCost := some costs }, .ok costs.sum)

/-- Model of `calculate_unit_rate` (source lines 32-44): total absolute
volume, then the total cost via `calculate_daily_imbalance_cost`, then
`total_cost / total_volume if total_volume > 0 else 0`. -/
def calculate_unit_rate (df : DataFrame) : DataFrame × Except Err ℚ :=
  match getCol df.netImbalanceVolume "netImbalanceVolume" with
  | .error e => (df, .error e)
  | .ok nv =>
    let total_volume := (nv.map (fun v => |v|)).sum
    match calculate_daily_imbalance_cost df with
    | (df1, .error e) => (df1, .error e)
    | (df1, .ok total_cost) =>
      (df1, .ok (if total_volume > 0 then total_cost / total_volume else 0))

/-- Insert a key into an ascending duplicate-free key list, keeping it so. -/
def insortKey (x : Nat) : List Nat → List Nat
  | [] => [x]
  | y :: ys =>
    if x < y then x :: y :: ys
    else if x = y then y :: ys
    else y :: insortKey x ys

/-- Distinct keys of a list in ascending order: the group keys a pandas
`groupby` produces (sorted and deduplicated). -/
def sortedKeys (l : List Nat) : List Nat := l.foldr insortKey []

/-- Sum of the values paired with key `k`. -/
def keySum (pairs : List (Nat × ℚ)) (k : Nat) : ℚ :=
  ((pairs.filter (fun p => p.1 = k)).map Prod.snd).sum

/-- Model of `groupby(key)[column].sum()`: one `(key, sum)` row per distinct
key, with keys ascending. -/
def groupbySum (pairs : List (Nat × ℚ)) : List (Nat × ℚ) :=
  (sortedKeys (pairs.map Prod.fst)).map (fun k => (k, keySum pairs k))

/-- Model of `Series.idxmax`, which keeps the earlier label on ties. -/
def idxmaxAux (best : Nat × ℚ) : List (Nat × ℚ) → Nat
  | [] => best.1
  | p :: rest => if best.2 < p.2 then idxmaxAux p rest else idxmaxAux best rest

/-- Model of `Series.idxmax`: the label of the first occurrence of the
maximum value; pandas raises `ValueError` on an empty series. -/
def idxmax : List (Nat × ℚ) → Option Nat
  | [] => none
  | p :: rest => some (idxmaxAux p rest)

/-- Model of `hour_with_highest_imbalance` (source lines 46-59): write the
`hour` column from the index, group the signed volumes by hour, take the
absolute value of each hourly sum, and return `idxmax`. -/
def hour_with_highest_imbalance (df : DataFrame) : DataFrame × Except Err Nat :=
  let hours := df.index.map (fun t => (t.hour : Nat))
  let df1 := { df with hour := some hours }
  match getCol df1.netImbalanceVolume "netImbalanceVolume" with
  | .error e => (df1, .error e)
  | .ok nv =>
    let hourly := (groupbySum (hours.zip nv)).map (fun p => (p.1, |p.2|))
    match idxmax hourly with
    | none => (df1, .error .valueError)
    | some h => (df1, .ok h)

/-- Python `round` to the nearest integer, halves to the even neighbour. -/
def pyRoundInt (q : ℚ) : ℤ :=
  if q - ⌊q⌋ < 1/2 then ⌊q⌋
  else if q - ⌊q⌋ > 1/2 then ⌊q⌋ + 1
  else if ⌊q⌋ % 2 = 0 then ⌊q⌋ else ⌊q⌋ + 1

/-- Python `round(x, 2)`. -/
def pyRound2 (q : ℚ) : ℚ := (pyRoundInt (q * 100) : ℚ) / 100

/-- Model of `calculate_daily_average_imbalance` (source lines 61-72): the
mean of the signed volumes rounded to 2 places; the pandas mean of an empty
column is NaN (modelled `none`), and `round(nan, 2)` is still NaN. -/
def calculate_daily_average_imbalance (df : DataFrame) :
    DataFrame × Except Err (Option ℚ) :=
  match getCol df.netImbalanceVolume "netImbalanceVolume" with
  | .error e => (df, .error e)
  | .ok nv =>
    match nv with
    | [] => (df, .ok none)
    | _ => (df, .ok (some (pyRound2 (nv.sum / nv.length))))

/-- Model of `calculate_hourly_imbalance_cost` (source lines 74-91): write
the `hour` column, recompute the per-interval costs with the same `np.where`
into `hourlyImbalanceCost`, and group them by hour. -/
def calculate_hourly_imbalance_cost (df : DataFrame) :
    DataFrame × Except Err (List (Nat × ℚ)) :=
  let hours := df.index.map (fun t => (t.hour : Nat))
  let df1 := { df with hour := some hours }
  match getCol df1.netImbalanceVolume "netImbalanceVolume" with
  | .error e => (df1, .error e)
  | .ok nv =>
    match getCol df1.systemSellPrice "systemSellPrice" with
    | .error e => (df1, .error e)
    | .ok sp =>
      match getCol df1.systemBuyPrice "systemBuyPrice" with
      | .error e => (df1, .error e)
      | .ok bp =>
        let costs := whereCosts nv sp bp
        let df2 := { df1 with hourlyImbalanceCost := some costs }
        (df2, .ok (groupbySum (hours.zip costs)))

/-- The Sunday on or after day `d` (day 0 = 1970-01-01 was a Thursday, so a
day is a Sunday iff `d % 7 = 3`): the bucket label `resample('W')` assigns
to date `d`. -/
def weekEnd (d : Nat) : Nat := d + (10 - d % 7) % 7

/-- Model of `resample('W').sum()` on a date-indexed series with ascending
index: weekly buckets labelled by their Sunday, running from the week of the
first date to the week of the last, intermediate empty weeks kept with sum
0. -/
def resampleWeekSum (daily : List (Nat × ℚ)) : List (Nat × ℚ) :=
  match daily with
  | [] => []
  | d0 :: _ =>
    let lo := weekEnd d0.1
    let hi := weekEnd (daily.getLastD d0).1
    (List.range ((hi - lo) / 7 + 1)).map (fun i =>
      (lo + 7 * i,
        ((daily.filter (fun p => weekEnd p.1 = lo + 7 * i)).map Prod.snd).sum))

/-- Model of `calculate_weekly_trend` (source lines 93-108): write the `date`
column from the index, sum the cached `imbalanceCost` column per date, and
resample the daily totals into weeks ending on Sunday. -/
def calculate_weekly_trend (df : DataFrame) :
    DataFrame × Except Err (List (Nat × ℚ)) :=
  let dates := df.index.map Timestamp.day
  let df1 := { df with date := some dates }
  match getCol df1.imbalanceCost "imbalanceCost" with
  | .error e => (df1, .error e)
  | .ok ic =>
    (df1, .ok (resampleWeekSum (groupbySum (dates.zip ic))))

/-- Per-interval cost exactly as the spec words it: the absolute volume
times the sell price when the volume is negative and the buy price
otherwise, the volume 0 taking the buy-price branch. -/
def interval_cost (v s b : ℚ) : ℚ := |v| * (if v < 0 then s else b)

/-- Signed net-imbalance volume summed over the intervals of the series
that fall in hour-of-day `h`: the quantity that the source's
`groupby('hour')['netImbalanceVolume'].sum()` computes per hour. -/
def hourlyNetSum (df : DataFrame) (nv : List ℚ) (h : Nat) : ℚ :=
  keySum ((df.index.map (fun t => (t.hour : Nat))).zip nv) h

/-- Per-calendar-day totals of a cost column: the source's
`groupby('date')['imbalanceCost'].sum()`, ordered by ascending date. -/
def dailyCostTotals (df : DataFrame) (ic : List ℚ) : List (Nat × ℚ) :=
  groupbySum ((df.index.map Timestamp.day).zip ic)

/-- The index and the three raw input columns of a frame: the data that the
core computations must never touch. -/
def baseOf (df : DataFrame) :
    List Timestamp × Option (List ℚ) × Option (List ℚ) × Option (List ℚ) :=
  (df.index, df.systemSellPrice, df.systemBuyPrice, df.netImbalanceVolume)

/-- Concrete one-interval frame: 100 MWh net buy at sell price 60 and buy
price 65, on 2023-10-24 (day 19654) at 00:00. -/
def dfOne : DataFrame :=
  { index := [⟨19654, 0, 0⟩]
    systemSellPrice := some [60]
    systemBuyPrice := some [65]
    netImbalanceVolume := some [100]
    imbalanceCost := none
    hour := none
    hourlyImbalanceCost := none
    date := none }

/-- Concrete empty frame: a valid series with zero intervals. -/
def dfEmpty : DataFrame :=
  { index := []
    systemSellPrice := some []
    systemBuyPrice := some []
    netImbalanceVolume := some []
    imbalanceCost := none
    hour := none
    hourlyImbalanceCost := none
    date := none }

/-- Concrete two-interval frame over hours 0 and 1 with volumes 5 and -7. -/
def dfTwo : DataFrame :=
  { index := [⟨19654, 0, 0⟩, ⟨19654, 1, 30⟩]
    systemSellPrice := some [60, 60]
    systemBuyPrice := some [65, 65]
    netImbalanceVolume := some [5, -7]
    imbalanceCost := none
    hour := none
    hourlyImbalanceCost := none
    date := none }

theorem whereCosts_eq_interval_cost (nv sp bp : List ℚ) :
    whereCosts nv sp bp = zipWith3 interval_cost nv sp bp := by
  induction nv generalizing sp bp with
  | nil => rfl
  | cons v vs ih =>
    cases sp with
    | nil => rfl
    | cons s ss =>
      cases bp with
      | nil => rfl
      | cons b bs =>
        show _ :: whereCosts vs ss bs = _ :: zipWith3 interval_cost vs ss bs
        rw [ih]
        congr 1
        by_cases h : v < 0 <;> simp [interval_cost, h]

/-- C1: the daily-cost calculation assigns each interval the cost
`|volume| * sell` when the volume is negative and `|volume| * buy`
otherwise (volume 0 taking the buy-price branch), returns the sum of these
per-interval costs over all intervals, and returns total 0 on an empty
series. -/
theorem daily_cost_correct (df : DataFrame) (nv sp bp : List ℚ)
    (hnv : df.netImbalanceVolume = some nv)
    (hsp : df.systemSellPrice = some sp)
    (hbp : df.systemBuyPrice = some bp) :
    (calculate_daily_imbalance_cost df).2
        = .ok ((zipWith3 interval_cost nv sp bp).sum)
      ∧ (calculate_daily_imbalance_cost df).1.imbalanceCost
        = some (zipWith3 interval_cost nv sp bp)
      ∧ (nv = [] → (calculate_daily_imbalance_cost df).2 = .ok 0) := by
  have h1 : calculate_daily_imbalance_cost df
      = ({ df with imbalanceCost := some (whereCosts nv sp bp) },
          .ok ((whereCosts nv sp bp).sum)) := by
    simp [calculate_daily_imbalance_cost, getCol, hnv, hsp, hbp]
  rw [whereCosts_eq_interval_cost] at h1
  refine ⟨by rw [h1], by rw [h1], ?_⟩
  rintro rfl
  rw [h1]
  cases sp <;> cases bp <;> simp [zipWith3]

theorem daily_cost_correct_witness :
    dfTwo.netImbalanceVolume = some [5, -7]
      ∧ (calculate_daily_imbalance_cost dfTwo).2
          = .ok ((zipWith3 interval_cost [5, -7] [60, 60] [65, 65]).sum) :=
  ⟨rfl, (daily_cost_correct dfTwo [5, -7] [60, 60] [65, 65] rfl rfl rfl).1⟩

/-- C2: the unit rate is the total cost divided by the sum of absolute net
imbalance volumes, and whenever that sum is 0 (the empty series included)
the unit rate is exactly 0, with no exception raised. -/
theorem unit_rate_correct (df : DataFrame) (nv sp bp : List ℚ)
    (hnv : df.netImbalanceVolume = some nv)
    (hsp : df.systemSellPrice = some sp)
    (hbp : df.systemBuyPrice = some bp) :
    ∃ T r, (calculate_daily_imbalance_cost df).2 = .ok T
      ∧ (calculate_unit_rate df).2 = .ok r
      ∧ ((nv.map (fun v => |v|)).sum = 0 → r = 0)
      ∧ ((nv.map (fun v => |v|)).sum ≠ 0
          → r = T / (nv.map (fun v => |v|)).sum) := by
  have hnn : 0 ≤ (nv.map (fun v => |v|)).sum := by
    apply List.sum_nonneg
    intro x hx
    obtain ⟨v, _, rfl⟩ := List.mem_map.mp hx
    exact abs_nonneg v
  refine ⟨(whereCosts nv sp bp).sum,
    if (nv.map (fun v => |v|)).sum > 0
      then (whereCosts nv sp bp).sum / (nv.map (fun v => |v|)).sum else 0,
    by simp [calculate_daily_imbalance_cost, getCol, hnv, hsp, hbp],
    by simp [calculate_unit_rate, calculate_daily_imbalance_cost, getCol,
      hnv, hsp, hbp],
    ?_, ?_⟩
  · intro h0
    simp [h0]
  · intro hne
    have : (nv.map (fun v => |v|)).sum > 0 := lt_of_le_of_ne hnn (Ne.symm hne)
    simp [this]

theorem unit_rate_correct_witness :
    ∃ T r, (calculate_daily_imbalance_cost dfTwo).2 = .ok T
      ∧ (calculate_unit_rate dfTwo).2 = .ok r
      ∧ ((([5, -7] : List ℚ).map (fun v => |v|)).sum = 0 → r = 0)
      ∧ ((([5, -7] : List ℚ).map (fun v => |v|)).sum ≠ 0
          → r = T / (([5, -7] : List ℚ).map (fun v => |v|)).sum) :=
  unit_rate_correct dfTwo [5, -7] [60, 60] [65, 65] rfl rfl rfl

/-- C8: for every operation of the Cost Calculator and the Aggregator and
every column that the operation requires, a series missing that column
makes the operation raise a `KeyError` naming the missing column (the
first missing one in the source's evaluation order), surfaced to the
caller unchanged, with no recovery and no partial result: the returned
pair is pinned exactly, so the frame is untouched for the daily-cost,
unit-rate and daily-average operations and gains only the derived helper
column (`hour`, resp. `date`) that the peak-hour, hourly-cost and
weekly-trend operations write before their first column read — never a
cost or aggregate value. -/
theorem missing_column_error (df : DataFrame) :
    (df.netImbalanceVolume = none →
        calculate_daily_imbalance_cost df
            = (df, .error (.keyError "netImbalanceVolume"))
          ∧ calculate_unit_rate df = (df, .error (.keyError "netImbalanceVolume"))
          ∧ calculate_daily_average_imbalance df
            = (df, .error (.keyError "netImbalanceVolume"))
          ∧ hour_with_highest_imbalance df
            = ({ df with hour := some (df.index.map (fun t => (t.hour : Nat))) },
                .error (.keyError "netImbalanceVolume"))
          ∧ calculate_hourly_imbalance_cost df
            = ({ df with hour := some (df.index.map (fun t => (t.hour : Nat))) },
                .error (.keyError "netImbalanceVolume")))
      ∧ (∀ nv, df.netImbalanceVolume = some nv → df.systemSellPrice = none →
          calculate_daily_imbalance_cost df
              = (df, .error (.keyError "systemSellPrice"))
            ∧ calculate_unit_rate df = (df, .error (.keyError "systemSellPrice"))
            ∧ calculate_hourly_imbalance_cost df
              = ({ df with hour := some (df.index.map (fun t => (t.hour : Nat))) },
                  .error (.keyError "systemSellPrice")))
      ∧ (∀ nv sp, df.netImbalanceVolume = some nv → df.systemSellPrice = some sp
          → df.systemBuyPrice = none →
          calculate_daily_imbalance_cost df
              = (df, .error (.keyError "systemBuyPrice"))
            ∧ calculate_unit_rate df = (df, .error (.keyError "systemBuyPrice"))
            ∧ calculate_hourly_imbalance_cost df
              = ({ df with hour := some (df.index.map (fun t => (t.hour : Nat))) },
                  .error (.keyError "systemBuyPrice")))
      ∧ (df.imbalanceCost = none →
          calculate_weekly_trend df
            = ({ df with date := some (df.index.map Timestamp.day) },
                .error (.keyError "imbalanceCost"))) := by
  refine ⟨?_, ?_, ?_, ?_⟩
  · intro h
    refine ⟨?_, ?_, ?_, ?_, ?_⟩ <;>
      simp [calculate_daily_imbalance_cost, calculate_unit_rate,
        calculate_daily_average_imbalance, hour_with_highest_imbalance,
        calculate_hourly_imbalance_cost, getCol, h]
  · intro nv hnv hsp
    refine ⟨?_, ?_, ?_⟩ <;>
      simp [calculate_daily_imbalance_cost, calculate_unit_rate,
        calculate_hourly_imbalance_cost, getCol, hnv, hsp]
  · intro nv sp hnv hsp hbp
    refine ⟨?_, ?_, ?_⟩ <;>
      simp [calculate_daily_imbalance_cost, calculate_unit_rate,
        calculate_hourly_imbalance_cost, getCol, hnv, hsp, hbp]
  · intro h
    simp [calculate_weekly_trend, getCol, h]

theorem missing_column_error_witness :
    ({ dfOne with netImbalanceVolume := none }.netImbalanceVolume = none
      ∧ calculate_daily_imbalance_cost { dfOne with netImbalanceVolume := none }
        = ({ dfOne with netImbalanceVolume := none },
            .error (.keyError "netImbalanceVolume"))
      ∧ hour_with_highest_imbalance { dfOne with netImbalanceVolume := none }
        = ({ { dfOne with netImbalanceVolume := none } with
              hour := some ({ dfOne with netImbalanceVolume := none }.index.map
                (fun t : Timestamp => (t.hour : Nat))) },
            .error (.keyError "netImbalanceVolume")))
      ∧ ({ dfOne with systemSellPrice := none }.systemSellPrice = none
        ∧ calculate_unit_rate { dfOne with systemSellPrice := none }
          = ({ dfOne with systemSellPrice := none },
              .error (.keyError "systemSellPrice"))) :=
  ⟨⟨rfl, ((missing_column_error _).1 rfl).1, ((missing_column_error _).1 rfl).2.2.2.1⟩,
    rfl, ((missing_column_error _).2.1 [100] rfl rfl).2.1⟩

/-- C9: recomputing the daily cost on the frame produced by a first
computation returns the same total and the same frame, the cache
overwritten with the same per-interval values: the operation is
idempotent. -/
theorem total_cost_idempotent (df : DataFrame) :
    calculate_daily_imbalance_cost (calculate_daily_imbalance_cost df).1
      = calculate_daily_imbalance_cost df := by
  cases hnv : df.netImbalanceVolume <;>
    cases hsp : df.systemSellPrice <;>
    cases hbp : df.systemBuyPrice <;>
    simp [calculate_daily_imbalance_cost, getCol, hnv, hsp, hbp]

/-- C10: the unit-rate calculation performs the same frame mutation as the
daily-cost calculation, in particular it populates the cached
`imbalanceCost` column from the current volume and price columns, which is
exactly the precondition the weekly-trend aggregation needs, so the weekly
trend succeeds on the resulting frame. -/
theorem unit_rate_cache_effect (df : DataFrame) (nv sp bp : List ℚ)
    (hnv : df.netImbalanceVolume = some nv)
    (hsp : df.systemSellPrice = some sp)
    (hbp : df.systemBuyPrice = some bp) :
    (calculate_unit_rate df).1 = (calculate_daily_imbalance_cost df).1
      ∧ (calculate_unit_rate df).1.imbalanceCost = some (whereCosts nv sp bp)
      ∧ ∃ w, (calculate_weekly_trend (calculate_unit_rate df).1).2 = .ok w := by
  refine ⟨?_, ?_, ?_⟩ <;>
    simp [calculate_unit_rate, calculate_daily_imbalance_cost,
      calculate_weekly_trend, getCol, hnv, hsp, hbp]

theorem unit_rate_cache_effect_witness :
    dfOne.netImbalanceVolume = some [100]
      ∧ (calculate_unit_rate dfOne).1.imbalanceCost
        = some (whereCosts [100] [60] [65]) :=
  ⟨rfl, (unit_rate_cache_effect dfOne [100] [60] [65] rfl rfl rfl).2.1⟩

/-- C5 counterexample: the peak-hour computation mutates a column other
than the cached imbalance cost: it writes an `hour` column onto the frame,
so the core computations are not pure up to the `imbalanceCost` cache
alone. -/
theorem purity_cex :
    (hour_with_highest_imbalance dfOne).1.hour ≠ dfOne.hour := by
  decide

/-- C5 amended: every core computation (total cost, unit rate, peak hour,
daily average, hourly cost, weekly trend) leaves the index and the raw
price/volume columns unchanged; the mutations are confined to the derived
columns `imbalanceCost`, `hour`, `hourlyImbalanceCost` and `date` (not to
`imbalanceCost` alone, as the spec claims). -/
theorem core_ops_preserve_base (df : DataFrame) :
    baseOf (calculate_daily_imbalance_cost df).1 = baseOf df
      ∧ baseOf (calculate_unit_rate df).1 = baseOf df
      ∧ baseOf (hour_with_highest_imbalance df).1 = baseOf df
      ∧ baseOf (calculate_daily_average_imbalance df).1 = baseOf df
      ∧ baseOf (calculate_hourly_imbalance_cost df).1 = baseOf df
      ∧ baseOf (calculate_weekly_trend df).1 = baseOf df := by
  refine ⟨?_, ?_, ?_, ?_, ?_, ?_⟩
  · cases hnv : df.netImbalanceVolume <;>
      cases hsp : df.systemSellPrice <;>
      cases hbp : df.systemBuyPrice <;>
      simp [calculate_daily_imbalance_cost, getCol, baseOf, hnv, hsp, hbp]
  · cases hnv : df.netImbalanceVolume <;>
      cases hsp : df.systemSellPrice <;>
      cases hbp : df.systemBuyPrice <;>
      simp [calculate_unit_rate, calculate_daily_imbalance_cost, getCol,
        baseOf, hnv, hsp, hbp]
  · cases hnv : df.netImbalanceVolume with
    | none => simp [hour_with_highest_imbalance, getCol, baseOf, hnv]
    | some nv =>
      cases hidx : idxmax (((df.index.map (fun t => (t.hour : Nat))).zip nv
            |> groupbySum).map (fun p => (p.1, |p.2|))) <;>
        simp [hour_with_highest_imbalance, getCol, baseOf, hnv, hidx]
  · cases hnv : df.netImbalanceVolume with
    | none => simp [calculate_daily_average_imbalance, getCol, baseOf, hnv]
    | some nv =>
      cases nv <;>
        simp [calculate_daily_average_imbalance, getCol, baseOf, hnv]
  · cases hnv : df.netImbalanceVolume <;>
      cases hsp : df.systemSellPrice <;>
      cases hbp : df.systemBuyPrice <;>
      simp [calculate_hourly_imbalance_cost, getCol, baseOf, hnv, hsp, hbp]
  · cases hic : df.imbalanceCost <;>
      simp [calculate_weekly_trend, getCol, baseOf, hic]

/-- C6 counterexample: on the empty series the daily-average computation
returns the NaN that the pandas mean of an empty column produces (modelled
`none`), not the value 0 the spec claims. -/
theorem empty_mean_cex :
    (calculate_daily_average_imbalance dfEmpty).2 = .ok none
      ∧ (calculate_daily_average_imbalance dfEmpty).2 ≠ .ok (some 0) := by
  constructor <;> simp [calculate_daily_average_imbalance, getCol, dfEmpty]

/-- C6 amended: for a non-empty series the daily average is the arithmetic
mean of the signed net imbalance volumes rounded to 2 decimal places; for
an empty series it is NaN (modelled `none`), not 0. -/
theorem daily_average_correct (df : DataFrame) (nv : List ℚ)
    (hnv : df.netImbalanceVolume = some nv) :
    (nv ≠ [] → (calculate_daily_average_imbalance df).2
        = .ok (some (pyRound2 (nv.sum / nv.length))))
      ∧ (nv = [] → (calculate_daily_average_imbalance df).2 = .ok none) := by
  constructor
  · intro h
    rcases nv with _ | ⟨v, vs⟩
    · exact absurd rfl h
    · simp [calculate_daily_average_imbalance, getCol, hnv]
  · rintro rfl
    simp [calculate_daily_average_imbalance, getCol, hnv]

theorem daily_average_correct_witness :
    ([100] : List ℚ) ≠ []
      ∧ (calculate_daily_average_imbalance dfOne).2
        = .ok (some (pyRound2 (([100] : List ℚ).sum / ([100] : List ℚ).length))) :=
  ⟨by decide, (daily_average_correct dfOne [100] rfl).1 (by decide)⟩

/-- C4 (code bug): the weekly trend consumes the cached `imbalanceCost`
column as is.  Populating the cache on the one-interval frame `dfOne`
(cost 6500 from volume 100 at buy price 65) and then changing the volume
to 200 leaves the weekly trend summing the stale 6500, while the cost
recomputed from the current fields is 13000: the value used downstream is
not fresh relative to the current volume/price fields. -/
theorem weekly_trend_stale_cache :
    (calculate_weekly_trend
        { (calculate_daily_imbalance_cost dfOne).1 with
            netImbalanceVolume := some [200] }).2
      = .ok [(19659, 6500)]
      ∧ whereCosts [200] [60] [65] = [13000]
      ∧ (6500 : ℚ) ≠ 13000 := by
  have hw : whereCosts [100] [60] [65] = [6500] := by
    norm_num [whereCosts, zipWith3, abs_of_nonneg]
  have h1 : (calculate_daily_imbalance_cost dfOne).1
      = { dfOne with imbalanceCost := some [6500] } := by
    simp [calculate_daily_imbalance_cost, getCol, dfOne, hw]
  refine ⟨?_, ?_, by norm_num⟩
  · rw [h1]
    norm_num [calculate_weekly_trend, getCol, dfOne, groupbySum, sortedKeys,
      insortKey, keySum, resampleWeekSum, weekEnd, List.range_succ]
  · norm_num [whereCosts, zipWith3, abs_of_nonneg]

theorem mem_insortKey (x y : Nat) (l : List Nat) :
    y ∈ insortKey x l ↔ y = x ∨ y ∈ l := by
  induction l with
  | nil => simp [insortKey]
  | cons z zs ih =>
    rcases Nat.lt_trichotomy x z with h1 | h1 | h1
    · have he : insortKey x (z :: zs) = x :: z :: zs := by
        simp [insortKey, h1]
      rw [he]
      simp only [List.mem_cons]
    · subst h1
      have he : insortKey x (x :: zs) = x :: zs := by
        simp [insortKey]
      rw [he]
      simp only [List.mem_cons]
      tauto
    · have he : insortKey x (z :: zs) = z :: insortKey x zs := by
        have hn1 : ¬ x < z := by omega
        have hn2 : ¬ x = z := by omega
        simp [insortKey, hn1, hn2]
      rw [he]
      simp only [List.mem_cons, ih]
      tauto

theorem pairwise_insortKey (x : Nat) (l : List Nat)
    (h : l.Pairwise (· < ·)) : (insortKey x l).Pairwise (· < ·) := by
  induction l with
  | nil => simp [insortKey]
  | cons z zs ih =>
    rw [List.pairwise_cons] at h
    obtain ⟨hz, hzs⟩ := h
    by_cases h1 : x < z
    · simp only [insortKey, if_pos h1]
      refine List.pairwise_cons.mpr ⟨?_, List.pairwise_cons.mpr ⟨hz, hzs⟩⟩
      intro y hy
      rcases List.mem_cons.mp hy with rfl | hy2
      · exact h1
      · exact h1.trans (hz y hy2)
    · by_cases h2 : x = z
      · simp only [insortKey, if_neg h1, if_pos h2]
        exact List.pairwise_cons.mpr ⟨hz, hzs⟩
      · simp only [insortKey, if_neg h1, if_neg h2]
        refine List.pairwise_cons.mpr ⟨?_, ih hzs⟩
        intro y hy
        rcases (mem_insortKey x y zs).mp hy with rfl | hy2
        · omega
        · exact hz y hy2

theorem sortedKeys_pairwise (l : List Nat) :
    (sortedKeys l).Pairwise (· < ·) := by
  induction l with
  | nil => simp [sortedKeys]
  | cons x xs ih => exact pairwise_insortKey x (sortedKeys xs) ih

theorem mem_sortedKeys (l : List Nat) (x : Nat) :
    x ∈ sortedKeys l ↔ x ∈ l := by
  induction l with
  | nil => simp [sortedKeys]
  | cons y ys ih =>
    show x ∈ insortKey y (sortedKeys ys) ↔ _
    rw [mem_insortKey y x (sortedKeys ys)]
    simp [ih]

theorem groupbySum_map_fst (pairs : List (Nat × ℚ)) :
    (groupbySum pairs).map Prod.fst = sortedKeys (pairs.map Prod.fst) := by
  rw [groupbySum, List.map_map]
  have hcomp : (Prod.fst ∘ fun k => (k, keySum pairs k)) = id := rfl
  rw [hcomp, List.map_id]

theorem mem_groupbySum (pairs : List (Nat × ℚ)) (p : Nat × ℚ)
    (hp : p ∈ groupbySum pairs) :
    p.2 = keySum pairs p.1 ∧ p.1 ∈ pairs.map Prod.fst := by
  obtain ⟨k, hk, rfl⟩ := List.mem_map.mp hp
  exact ⟨rfl, (mem_sortedKeys _ k).mp hk⟩

theorem key_mem_groupbySum (pairs : List (Nat × ℚ)) (k : Nat)
    (hk : k ∈ pairs.map Prod.fst) :
    (k, keySum pairs k) ∈ groupbySum pairs :=
  List.mem_map.mpr ⟨k, (mem_sortedKeys _ k).mpr hk, rfl⟩

theorem idxmaxAux_spec (l : List (Nat × ℚ)) (best : Nat × ℚ)
    (hs : ((best :: l).map Prod.fst).Pairwise (· < ·)) :
    ∃ v, (idxmaxAux best l, v) ∈ best :: l
      ∧ (∀ p ∈ best :: l, p.2 ≤ v)
      ∧ (∀ p ∈ best :: l, p.2 = v → idxmaxAux best l ≤ p.1) := by
  induction l generalizing best with
  | nil =>
    refine ⟨best.2, ?_, ?_, ?_⟩
    · simp [idxmaxAux]
    · intro p hp
      rw [List.mem_singleton.mp hp]
    · intro p hp _
      rw [List.mem_singleton.mp hp, idxmaxAux]
  | cons q rest ih =>
    rw [List.map_cons, List.pairwise_cons] at hs
    obtain ⟨hlt, hs2⟩ := hs
    by_cases hcmp : best.2 < q.2
    · have heq : idxmaxAux best (q :: rest) = idxmaxAux q rest := by
        simp [idxmaxAux, hcmp]
      obtain ⟨v, hmem, hub, htie⟩ := ih q hs2
      have hqv : q.2 ≤ v := hub q (List.mem_cons_self q rest)
      refine ⟨v, ?_, ?_, ?_⟩
      · rw [heq]
        exact List.mem_cons_of_mem best hmem
      · intro p hp
        rcases List.mem_cons.mp hp with rfl | hp2
        · exact le_of_lt (lt_of_lt_of_le hcmp hqv)
        · exact hub p hp2
      · intro p hp hpv
        rcases List.mem_cons.mp hp with rfl | hp2
        · exact absurd hpv (ne_of_lt (lt_of_lt_of_le hcmp hqv))
        · rw [heq]
          exact htie p hp2 hpv
    · have heq : idxmaxAux best (q :: rest) = idxmaxAux best rest := by
        simp [idxmaxAux, hcmp]
      have hs3 : ((best :: rest).map Prod.fst).Pairwise (· < ·) := by
        rw [List.map_cons, List.pairwise_cons]
        refine ⟨?_, (List.pairwise_cons.mp hs2).2⟩
        intro b hb
        exact hlt b (List.mem_cons_of_mem _ hb)
      obtain ⟨v, hmem, hub, htie⟩ := ih best hs3
      have hqb : q.2 ≤ best.2 := le_of_not_lt hcmp
      have hbv : best.2 ≤ v := hub best (List.mem_cons_self best rest)
      refine ⟨v, ?_, ?_, ?_⟩
      · rw [heq]
        rcases List.mem_cons.mp hmem with h | h
        · rw [List.mem_cons]
          exact Or.inl h
        · exact List.mem_cons_of_mem _ (List.mem_cons_of_mem _ h)
      · intro p hp
        rcases List.mem_cons.mp hp with rfl | hp2
        · exact hbv
        rcases List.mem_cons.mp hp2 with rfl | hp3
        · exact le_trans hqb hbv
        · exact hub p (List.mem_cons_of_mem _ hp3)
      · intro p hp hpv
        rw [heq]
        rcases List.mem_cons.mp hp with rfl | hp2
        · exact htie p (List.mem_cons_self _ _) hpv
        rcases List.mem_cons.mp hp2 with rfl | hp3
        · have hbev : best.2 = v := le_antisymm hbv (hpv ▸ hqb)
          have h1 : idxmaxAux best rest ≤ best.1 :=
            htie best (List.mem_cons_self _ _) hbev
          have h2 : best.1 < p.1 :=
            hlt p.1 (List.mem_map.mpr ⟨p, List.mem_cons_self _ _, rfl⟩)
          omega
        · exact htie p (List.mem_cons_of_mem _ hp3) hpv

/-- C3: on a non-empty series the peak-imbalance hour is an hour of day
actually occurring in the index whose absolute sum of signed net imbalance
volumes is maximal over all occurring hours, and on a tie the
lowest-numbered hour is returned. -/
theorem peak_hour_correct (df : DataFrame) (nv : List ℚ)
    (hnv : df.netImbalanceVolume = some nv)
    (hlen : nv.length = df.index.length)
    (hne : df.index ≠ []) :
    ∃ h, (hour_with_highest_imbalance df).2 = .ok h
      ∧ h ∈ df.index.map (fun t => (t.hour : Nat))
      ∧ (∀ h2 ∈ df.index.map (fun t => (t.hour : Nat)),
          |hourlyNetSum df nv h2| ≤ |hourlyNetSum df nv h|)
      ∧ (∀ h2 ∈ df.index.map (fun t => (t.hour : Nat)),
          |hourlyNetSum df nv h2| = |hourlyNetSum df nv h| → h ≤ h2) := by
  have hhl : (df.index.map (fun t => (t.hour : Nat))).length = df.index.length :=
    List.length_map _ _
  have hfst : ((df.index.map (fun t => (t.hour : Nat))).zip nv).map Prod.fst
      = df.index.map (fun t => (t.hour : Nat)) :=
    List.map_fst_zip _ _ (by rw [hhl, hlen])
  have hhne : df.index.map (fun t => (t.hour : Nat)) ≠ [] := by
    intro h0
    exact hne (List.map_eq_nil_iff.mp h0)
  obtain ⟨h0, hs0⟩ := List.exists_mem_of_ne_nil _ hhne
  have hsne : sortedKeys (((df.index.map (fun t => (t.hour : Nat))).zip nv).map
      Prod.fst) ≠ [] := by
    apply List.ne_nil_of_mem
    rw [hfst]
    exact (mem_sortedKeys _ _).mpr hs0
  have hgne : (groupbySum ((df.index.map (fun t => (t.hour : Nat))).zip nv)).map
      (fun p => (p.1, |p.2|)) ≠ [] := by
    intro hcon
    simp only [groupbySum, List.map_map, List.map_eq_nil_iff] at hcon
    exact hsne hcon
  cases hl : (groupbySum ((df.index.map (fun t => (t.hour : Nat))).zip nv)).map
      (fun p => (p.1, |p.2|)) with
  | nil => exact absurd hl hgne
  | cons hb ht =>
    have hrun : (hour_with_highest_imbalance df).2 = .ok (idxmaxAux hb ht) := by
      simp only [hour_with_highest_imbalance, getCol, hnv, hl, idxmax]
    have hpw : ((hb :: ht).map Prod.fst).Pairwise (· < ·) := by
      rw [← hl, List.map_map]
      have hcomp : (Prod.fst ∘ fun p : Nat × ℚ => (p.1, |p.2|)) = Prod.fst := rfl
      rw [hcomp, groupbySum_map_fst]
      exact sortedKeys_pairwise _
    obtain ⟨v, hmem, hub, htie⟩ := idxmaxAux_spec ht hb hpw
    rw [← hl] at hmem
    obtain ⟨p, hpmem, hpeq⟩ := List.mem_map.mp hmem
    have hp1 : p.1 = idxmaxAux hb ht := congrArg Prod.fst hpeq
    have hp2 : |p.2| = v := congrArg Prod.snd hpeq
    obtain ⟨hps, hpf⟩ := mem_groupbySum _ p hpmem
    have hv : v = |keySum ((df.index.map (fun t => (t.hour : Nat))).zip nv)
        (idxmaxAux hb ht)| := by
      rw [← hp2, hps, hp1]
    have hrmem : idxmaxAux hb ht ∈ df.index.map (fun t => (t.hour : Nat)) := by
      rw [hfst] at hpf
      exact hp1 ▸ hpf
    refine ⟨idxmaxAux hb ht, hrun, hrmem, ?_, ?_⟩
    · intro h2 hh2
      have hm2 : (h2, keySum ((df.index.map (fun t => (t.hour : Nat))).zip nv) h2)
          ∈ groupbySum ((df.index.map (fun t => (t.hour : Nat))).zip nv) :=
        key_mem_groupbySum _ h2 (by rw [hfst]; exact hh2)
      have hm3 : (h2, |keySum ((df.index.map (fun t => (t.hour : Nat))).zip nv) h2|)
          ∈ hb :: ht := by
        rw [← hl]
        exact List.mem_map.mpr ⟨_, hm2, rfl⟩
      have hle := hub _ hm3
      simp only [hourlyNetSum]
      rw [← hv]
      exact hle
    · intro h2 hh2 heq2
      have hm2 : (h2, keySum ((df.index.map (fun t => (t.hour : Nat))).zip nv) h2)
          ∈ groupbySum ((df.index.map (fun t => (t.hour : Nat))).zip nv) :=
        key_mem_groupbySum _ h2 (by rw [hfst]; exact hh2)
      have hm3 : (h2, |keySum ((df.index.map (fun t => (t.hour : Nat))).zip nv) h2|)
          ∈ hb :: ht := by
        rw [← hl]
        exact List.mem_map.mpr ⟨_, hm2, rfl⟩
      have heqv : (h2, |keySum ((df.index.map (fun t => (t.hour : Nat))).zip nv) h2|).2
          = v := by
        simp only [hourlyNetSum] at heq2
        rw [hv]
        exact heq2
      exact htie _ hm3 heqv

theorem peak_hour_correct_witness :
    ∃ h, (hour_with_highest_imbalance dfTwo).2 = .ok h
      ∧ h ∈ dfTwo.index.map (fun t => (t.hour : Nat))
      ∧ (∀ h2 ∈ dfTwo.index.map (fun t => (t.hour : Nat)),
          |hourlyNetSum dfTwo [5, -7] h2| ≤ |hourlyNetSum dfTwo [5, -7] h|)
      ∧ (∀ h2 ∈ dfTwo.index.map (fun t => (t.hour : Nat)),
          |hourlyNetSum dfTwo [5, -7] h2| = |hourlyNetSum dfTwo [5, -7] h|
            → h ≤ h2) :=
  peak_hour_correct dfTwo [5, -7] rfl (by decide) (by decide)

theorem weekEnd_mod (d : Nat) : weekEnd d % 7 = 3 := by
  rw [weekEnd]
  omega

theorem zipWith3_length {α β γ δ : Type} (f : α → β → γ → δ)
    (as : List α) (bs : List β) (cs : List γ) :
    (zipWith3 f as bs cs).length = min as.length (min bs.length cs.length) := by
  induction as generalizing bs cs with
  | nil =>
    show (List.length ([] : List δ)) = _
    simp
  | cons a as ih =>
    cases bs with
    | nil =>
      show (List.length ([] : List δ)) = _
      simp
    | cons b bs =>
      cases cs with
      | nil =>
        show (List.length ([] : List δ)) = _
        simp
      | cons c cs =>
        show (f a b c :: zipWith3 f as bs cs).length = _
        simp only [List.length_cons, ih]
        omega

theorem sortedKeys_const (l : List Nat) (d : Nat) (hne : l ≠ [])
    (hall : ∀ x ∈ l, x = d) : sortedKeys l = [d] := by
  induction l with
  | nil => exact absurd rfl hne
  | cons x xs ih =>
    have hx : x = d := hall x (List.mem_cons_self x xs)
    subst hx
    cases xs with
    | nil => simp [sortedKeys, insortKey]
    | cons y ys =>
      have h2 : sortedKeys (y :: ys) = [x] :=
        ih (by simp) (fun z hz => hall z (List.mem_cons_of_mem _ hz))
      show insortKey x (sortedKeys (y :: ys)) = [x]
      rw [h2]
      simp [insortKey]

theorem resampleWeekSum_single (d : Nat) (s : ℚ) :
    resampleWeekSum [(d, s)] = [(weekEnd d, s)] := by
  simp [resampleWeekSum, List.range_succ]

theorem resampleWeekSum_spec (daily : List (Nat × ℚ)) :
    ((resampleWeekSum daily).map Prod.fst).Pairwise (· < ·)
      ∧ (∀ p ∈ resampleWeekSum daily, p.1 % 7 = 3)
      ∧ (∀ p ∈ resampleWeekSum daily,
          p.2 = ((daily.filter (fun q => weekEnd q.1 = p.1)).map Prod.snd).sum) := by
  cases daily with
  | nil => simp [resampleWeekSum]
  | cons d0 rest =>
    refine ⟨?_, ?_, ?_⟩
    · simp only [resampleWeekSum, List.map_map]
      refine List.pairwise_map.mpr ?_
      refine (List.pairwise_lt_range _).imp ?_
      intro a b hab
      show weekEnd d0.1 + 7 * a < weekEnd d0.1 + 7 * b
      omega
    · intro p hp
      simp only [resampleWeekSum] at hp
      obtain ⟨i, _, rfl⟩ := List.mem_map.mp hp
      have hwm := weekEnd_mod d0.1
      show (weekEnd d0.1 + 7 * i) % 7 = 3
      omega
    · intro p hp
      simp only [resampleWeekSum] at hp
      obtain ⟨i, _, rfl⟩ := List.mem_map.mp hp
      rfl

/-- C7: with the interval costs computed first, the weekly trend succeeds,
its bucket labels are strictly increasing (chronological) Sundays, each
bucket total is the sum of the per-day cost totals of the days whose week
ends at that label, and a series whose timestamps all fall on one calendar
day yields exactly one bucket carrying the series total cost. -/
theorem weekly_trend_correct (df : DataFrame) (nv sp bp : List ℚ)
    (hnv : df.netImbalanceVolume = some nv)
    (hsp : df.systemSellPrice = some sp)
    (hbp : df.systemBuyPrice = some bp)
    (hln : nv.length = df.index.length)
    (hls : sp.length = df.index.length)
    (hlb : bp.length = df.index.length) :
    ∃ w, (calculate_daily_imbalance_cost df).2 = .ok ((whereCosts nv sp bp).sum)
      ∧ (calculate_weekly_trend (calculate_daily_imbalance_cost df).1).2 = .ok w
      ∧ (w.map Prod.fst).Pairwise (· < ·)
      ∧ (∀ p ∈ w, p.1 % 7 = 3)
      ∧ (∀ p ∈ w, p.2 = (((dailyCostTotals df (whereCosts nv sp bp)).filter
          (fun q => weekEnd q.1 = p.1)).map Prod.snd).sum)
      ∧ (∀ d, (∀ t ∈ df.index, t.day = d) → df.index ≠ [] →
          w = [(weekEnd d, (whereCosts nv sp bp).sum)]) := by
  have hdf1 : (calculate_daily_imbalance_cost df).1
      = { df with imbalanceCost := some (whereCosts nv sp bp) } := by
    simp [calculate_daily_imbalance_cost, getCol, hnv, hsp, hbp]
  have hdf2 : (calculate_daily_imbalance_cost df).2
      = .ok ((whereCosts nv sp bp).sum) := by
    simp [calculate_daily_imbalance_cost, getCol, hnv, hsp, hbp]
  have hrun : (calculate_weekly_trend (calculate_daily_imbalance_cost df).1).2
      = .ok (resampleWeekSum (dailyCostTotals df (whereCosts nv sp bp))) := by
    rw [hdf1]
    simp [calculate_weekly_trend, getCol, dailyCostTotals]
  obtain ⟨hpw, hsun, hbuck⟩ :=
    resampleWeekSum_spec (dailyCostTotals df (whereCosts nv sp bp))
  refine ⟨resampleWeekSum (dailyCostTotals df (whereCosts nv sp bp)),
    hdf2, hrun, hpw, hsun, hbuck, ?_⟩
  intro d hall hne
  have hall2 : ∀ x ∈ df.index.map Timestamp.day, x = d := by
    intro x hx
    obtain ⟨t, ht, rfl⟩ := List.mem_map.mp hx
    exact hall t ht
  have hdne : df.index.map Timestamp.day ≠ [] := by
    intro h0
    exact hne (List.map_eq_nil_iff.mp h0)
  have hcl : (whereCosts nv sp bp).length = df.index.length := by
    rw [whereCosts, zipWith3_length]
    omega
  have hfst2 : ((df.index.map Timestamp.day).zip (whereCosts nv sp bp)).map
      Prod.fst = df.index.map Timestamp.day :=
    List.map_fst_zip _ _ (by rw [List.length_map, hcl])
  have hsnd2 : ((df.index.map Timestamp.day).zip (whereCosts nv sp bp)).map
      Prod.snd = whereCosts nv sp bp :=
    List.map_snd_zip _ _ (by rw [List.length_map, hcl])
  have hkeys : sortedKeys ((((df.index.map Timestamp.day)).zip
      (whereCosts nv sp bp)).map Prod.fst) = [d] := by
    rw [hfst2]
    exact sortedKeys_const _ d hdne hall2
  have hfilter : ((df.index.map Timestamp.day).zip (whereCosts nv sp bp)).filter
      (fun p => p.1 = d)
      = (df.index.map Timestamp.day).zip (whereCosts nv sp bp) := by
    apply List.filter_eq_self.mpr
    intro p hp
    have hpm : p.1 ∈ ((df.index.map Timestamp.day).zip
        (whereCosts nv sp bp)).map Prod.fst :=
      List.mem_map.mpr ⟨p, hp, rfl⟩
    rw [hfst2] at hpm
    simp [hall2 p.1 hpm]
  have hgroup : dailyCostTotals df (whereCosts nv sp bp)
      = [(d, (whereCosts nv sp bp).sum)] := by
    rw [dailyCostTotals, groupbySum, hkeys]
    simp only [List.map_cons, List.map_nil]
    rw [keySum, hfilter, hsnd2]
  rw [hgroup, resampleWeekSum_single]

theorem weekly_trend_correct_witness :
    ∃ w, (calculate_daily_imbalance_cost dfOne).2
        = .ok ((whereCosts [100] [60] [65]).sum)
      ∧ (calculate_weekly_trend (calculate_daily_imbalance_cost dfOne).1).2
        = .ok w
      ∧ (w.map Prod.fst).Pairwise (· < ·)
      ∧ (∀ p ∈ w, p.1 % 7 = 3)
      ∧ (∀ p ∈ w, p.2 = (((dailyCostTotals dfOne (whereCosts [100] [60] [65])).filter
          (fun q => weekEnd q.1 = p.1)).map Prod.snd).sum)
      ∧ (∀ d, (∀ t ∈ dfOne.index, t.day = d) → dfOne.index ≠ [] →
          w = [(weekEnd d, (whereCosts [100] [60] [65]).sum)]) :=
  weekly_trend_correct dfOne [100] [60] [65] rfl rfl rfl (by decide) (by decide)
    (by decide)

end Imbalance
